import Mathlib

/-
  Verification of `Polygon_mesh_processing/self_intersections.h`.

  Shallow embedding of the self-intersection detection pipeline:
  the narrow-phase classifier `do_faces_intersect`, the face-box
  building loop of `self_intersections_impl` (degenerate faces are
  reported as self-pairs and excluded from the box list), the
  sequential and parallel result-collection loops with their cap
  (`maximum_number`) handling, and the public drivers
  `self_intersections` and `does_self_intersect`.

  External collaborators are modelled at their interface, as the
  source uses them:
  - the geometric kernel (`GT`) is a record of exact predicates
    (`collinear`, `coplanar`, `coplanar_orientation`,
    triangle/triangle and triangle/segment `do_intersect`);
  - the mesh is a record of the half-edge accessors the source calls
    (`target`, `next`, `prev`, `opposite`, `face`, `halfedge`), with
    vertex, half-edge and face handles modelled as natural numbers;
  - `CGAL::box_self_intersection_d` is an arbitrary candidate-pair
    generator over the built box list, and the parallel random
    shuffle is an arbitrary function on the box list;
  - the C++ exception `Throw_at_output_exception` is the error
    component of an `Except`, carrying the pairs already written to
    the output sink when it escapes `self_intersections_impl`.
-/

namespace SelfIntersections

/-- CGAL orientation values as returned by `coplanar_orientation`. -/
inductive Orientation where
  | NEGATIVE
  | COLLINEAR
  | POSITIVE
deriving DecidableEq

/-- The geometric-kernel interface the source consumes: exact decision
predicates for collinearity, coplanarity, coplanar orientation, and the
triangle/triangle and triangle/segment do-intersect tests. Triangles and
segments are tuples of points, as built by `construct_triangle_3` and
`construct_segment_3`. -/
structure Kernel (P : Type) where
  collinear : P → P → P → Bool
  coplanar : P → P → P → P → Bool
  coplanar_orientation : P → P → P → P → Orientation
  do_intersect_tt : P × P × P → P × P × P → Bool
  do_intersect_ts : P × P × P → P × P → Bool

/-- The half-edge mesh interface: every accessor the source calls.
Half-edges, vertices and faces are opaque handles, modelled as `Nat`. -/
structure Mesh where
  target : Nat → Nat
  next : Nat → Nat
  prev : Nat → Nat
  opposite : Nat → Nat
  face : Nat → Nat
  halfedge : Nat → Nat

/-- `source(h, tmesh) = target(opposite(h, tmesh), tmesh)`. -/
def Mesh.source (M : Mesh) (h : Nat) : Nat :=
  M.target (M.opposite h)

/-- `h` advanced `n` times by `next`, mirroring the `h = next(h, tmesh)`
update in the shared-edge loop of `do_faces_intersect`. -/
def nextIter (M : Mesh) (h : Nat) : Nat → Nat
  | 0 => h
  | n + 1 => M.next (nextIter M h n)

/-- The vertex array `hv` of `do_faces_intersect`:
`hv[0] = target(h)`, `hv[1] = target(next(h))`, `hv[2] = source(h)`.
Indices are taken modulo the pattern (callers use `i`, `(i+1)%3`,
`(i+2)%3` with `i < 3`). -/
def hvOf (M : Mesh) (h : Nat) : Nat → Nat
  | 0 => M.target h
  | 1 => M.target (M.next h)
  | _ => M.source h

/-- The triangle `construct_triangle(get(vpmap, hv[0]), get(vpmap, hv[1]),
get(vpmap, hv[2]))` of the face containing half-edge `h`. -/
def faceTriangle {P : Type} (M : Mesh) (vpm : Nat → P) (h : Nat) : P × P × P :=
  (vpm (hvOf M h 0), vpm (hvOf M h 1), vpm (hvOf M h 2))

/-- The segment `construct_segment(get(vpmap, hv[(i+1)%3]),
get(vpmap, hv[(i+2)%3]))` opposite vertex index `i` of the face
containing half-edge `h`. -/
def oppositeSegment {P : Type} (M : Mesh) (vpm : Nat → P) (h i : Nat) : P × P :=
  (vpm (hvOf M h ((i + 1) % 3)), vpm (hvOf M h ((i + 2) % 3)))

/-- The shared-edge loop of `do_faces_intersect`: the first
`i ∈ {0,1,2}` such that `face(opposite(next^i(h))) == face(g)`,
if any. -/
def firstSharedEdge (M : Mesh) (h g : Nat) : Option Nat :=
  if M.face (M.opposite (nextIter M h 0)) = M.face g then some 0
  else if M.face (M.opposite (nextIter M h 1)) = M.face g then some 1
  else if M.face (M.opposite (nextIter M h 2)) = M.face g then some 2
  else none

/-- The shared-vertex double loop of `do_faces_intersect`, unrolled:
the lexicographically first `(i, j)` with `hv[i] == gv[j]`, if any. -/
def firstSharedVertex (hv gv : Nat → Nat) : Option (Nat × Nat) :=
  if hv 0 = gv 0 then some (0, 0)
  else if hv 0 = gv 1 then some (0, 1)
  else if hv 0 = gv 2 then some (0, 2)
  else if hv 1 = gv 0 then some (1, 0)
  else if hv 1 = gv 1 then some (1, 1)
  else if hv 1 = gv 2 then some (1, 2)
  else if hv 2 = gv 0 then some (2, 0)
  else if hv 2 = gv 1 then some (2, 1)
  else if hv 2 = gv 2 then some (2, 2)
  else none

/-- The narrow-phase classifier `do_faces_intersect(h, g, tmesh, vpmap,
construct_segment, construct_triangle, do_intersect)`:
1. shared-edge check: report true iff the apex of the second face
   opposite the shared edge is coplanar with the first face and the
   coplanar orientation test returns `POSITIVE`;
2. shared-vertex check: report the disjunction of the two
   triangle/opposite-segment tests for the first found shared vertex;
3. otherwise the triangle/triangle test. -/
def do_faces_intersect {P : Type} (K : Kernel P) (M : Mesh) (vpm : Nat → P)
    (h g : Nat) : Bool :=
  let hv := hvOf M h
  let gv := hvOf M g
  match firstSharedEdge M h g with
  | some i =>
    let apex := vpm (M.target (M.next (M.opposite (nextIter M h i))))
    K.coplanar (vpm (hv i)) (vpm (hv ((i + 1) % 3))) (vpm (hv ((i + 2) % 3))) apex &&
      decide (K.coplanar_orientation (vpm (hv ((i + 2) % 3))) (vpm (hv i))
        (vpm (hv ((i + 1) % 3))) apex = Orientation.POSITIVE)
  | none =>
    match firstSharedVertex hv gv with
    | some (i, j) =>
      K.do_intersect_ts (faceTriangle M vpm h) (oppositeSegment M vpm g j) ||
        K.do_intersect_ts (faceTriangle M vpm g) (oppositeSegment M vpm h i)
    | none =>
      K.do_intersect_tt (faceTriangle M vpm h) (faceTriangle M vpm g)

/-- The box built for a face in `self_intersections_impl`:
`Box(p.bbox() + q.bbox() + r.bbox(), f)`. The bounding volume is the
input of the external box-intersection collaborator; we record the
three vertex positions it is built from, and `info` is the face. -/
structure FaceBox (P : Type) where
  pts : P × P × P
  info : Nat

/-- The three vertex positions `p, q, r` of face `f` read in the box
loop of `self_intersections_impl`:
`p = get(vpmap, target(h)), q = get(vpmap, target(next(h))),
r = get(vpmap, target(prev(h)))` with `h = halfedge(f)`. -/
def facePoints {P : Type} (M : Mesh) (vpm : Nat → P) (f : Nat) : P × P × P :=
  (vpm (M.target (M.halfedge f)),
   vpm (M.target (M.next (M.halfedge f))),
   vpm (M.target (M.prev (M.halfedge f))))

/-- The degeneracy test `collinear(p, q, r)` applied to face `f`. -/
def faceDegenerate {P : Type} (K : Kernel P) (M : Mesh) (vpm : Nat → P) (f : Nat) : Bool :=
  K.collinear (facePoints M vpm f).1 (facePoints M vpm f).2.1 (facePoints M vpm f).2.2

/-- The box pushed for a non-degenerate face. -/
def mkBox {P : Type} (M : Mesh) (vpm : Nat → P) (f : Nat) : FaceBox P :=
  ⟨facePoints M vpm f, f⟩

/-- Outcome of the box-building loop of `self_intersections_impl`:
`thrown` models the `Throw_at_output_exception` raised on a degenerate
face when `throw_on_SI` holds (with the boxes built so far and the
pairs already written to the sink), `capReached` the early
`return out` when the degenerate-pair counter hits `maximum_number`,
and `done` the normal completion with the box list, the sink contents
and the counter value. -/
inductive BuildResult (P : Type) where
  | thrown (boxes : List (FaceBox P)) (out : List (Nat × Nat))
  | capReached (out : List (Nat × Nat))
  | done (boxes : List (FaceBox P)) (out : List (Nat × Nat)) (counter : Nat)

/-- The pairs written to the output sink when the loop stops. -/
def BuildResult.outList {P : Type} : BuildResult P → List (Nat × Nat)
  | .thrown _ o => o
  | .capReached o => o
  | .done _ o _ => o

/-- The `for(face_descriptor f : face_range)` loop of
`self_intersections_impl`: a degenerate face either throws
(`throw_on_SI`) or writes the self-pair `(f, f)`, increments the
counter and returns early when the counter reaches `maximum_number`
under `do_limit`; a non-degenerate face contributes its box. -/
def buildBoxes {P : Type} (K : Kernel P) (M : Mesh) (vpm : Nat → P)
    (throwOnSI doLimit : Bool) (maxNumber : Nat) :
    List Nat → Nat → List (FaceBox P) → List (Nat × Nat) → BuildResult P
  | [], counter, boxes, out => .done boxes out counter
  | f :: fs, counter, boxes, out =>
    if faceDegenerate K M vpm f = true then
      if throwOnSI = true then
        .thrown boxes out
      else
        if doLimit = true ∧ counter + 1 = maxNumber then
          .capReached (out ++ [(f, f)])
        else
          buildBoxes K M vpm throwOnSI doLimit maxNumber fs (counter + 1) boxes
            (out ++ [(f, f)])
    else
      buildBoxes K M vpm throwOnSI doLimit maxNumber fs counter
        (boxes ++ [mkBox M vpm f]) out

/-- The body of `Strict_intersect_faces::operator()`: two boxes are
accepted when `do_faces_intersect` holds on the halfedges of their
faces; the emitted pair is `(b->info(), c->info())`. -/
def acceptPair {P : Type} (K : Kernel P) (M : Mesh) (vpm : Nat → P)
    (b c : FaceBox P) : Bool :=
  do_faces_intersect K M vpm (M.halfedge b.info) (M.halfedge c.info)

/-- Whether the throwing filter (`Strict_intersect_faces` over a
`Throw_at_output` iterator) raises on the candidate list: it throws at
the first accepted pair. -/
def anyPairAccepted {P : Type} (K : Kernel P) (M : Mesh) (vpm : Nat → P)
    (cands : List (FaceBox P × FaceBox P)) : Bool :=
  cands.any fun bc => acceptPair K M vpm bc.1 bc.2

/-- The uncapped filter: every accepted candidate pair is written, in
candidate order. -/
def unlimitedPairs {P : Type} (K : Kernel P) (M : Mesh) (vpm : Nat → P) :
    List (FaceBox P × FaceBox P) → List (Nat × Nat)
  | [] => []
  | (b, c) :: rest =>
    if acceptPair K M vpm b c = true then
      (b.info, c.info) :: unlimitedPairs K M vpm rest
    else
      unlimitedPairs K M vpm rest

/-- The sequential capped filter (`max_inter_counter` lambda): write
the pair, then throw once `++nbi == maximum_number`; `nbi` starts at 0.
The thrown signal is caught by the caller, so the function returns the
pairs written up to and including the one that triggered the throw. -/
def limitedPairsSeq {P : Type} (K : Kernel P) (M : Mesh) (vpm : Nat → P)
    (maxNumber : Nat) : List (FaceBox P × FaceBox P) → Nat → List (Nat × Nat)
  | [], _ => []
  | (b, c) :: rest, nbi =>
    if acceptPair K M vpm b c = true then
      if nbi + 1 = maxNumber then
        [(b.info, c.info)]
      else
        (b.info, c.info) :: limitedPairsSeq K M vpm maxNumber rest (nbi + 1)
    else
      limitedPairsSeq K M vpm maxNumber rest nbi

/-- The parallel capped filter (`Throw_at_count_reached_functor`):
append the pair to the concurrent vector, increment the counter
(initialised from the degenerate-pair count), throw once
`counter >= maxval`. The signal is caught and the collected pairs are
copied to the sink, so the function returns the pairs appended. -/
def limitedPairsPar {P : Type} (K : Kernel P) (M : Mesh) (vpm : Nat → P)
    (maxNumber : Nat) : List (FaceBox P × FaceBox P) → Nat → List (Nat × Nat)
  | [], _ => []
  | (b, c) :: rest, counter =>
    if acceptPair K M vpm b c = true then
      if maxNumber ≤ counter + 1 then
        [(b.info, c.info)]
      else
        (b.info, c.info) :: limitedPairsPar K M vpm maxNumber rest (counter + 1)
    else
      limitedPairsPar K M vpm maxNumber rest counter

/-- The `ConcurrencyTag` template parameter. -/
inductive ConcurrencyTag where
  | Sequential
  | Parallel

/-- `self_intersections_impl(face_range, tmesh, out, throw_on_SI, np)`.
`gen` is the external `box_self_intersection_d` candidate generator,
`shuffle` the parallel-mode random shuffle of the box-pointer range,
`cap` the optional `maximum_number` named parameter (`cap.isSome`
models `do_limit`). The result is `.error` exactly when a
`Throw_at_output_exception` escapes the function (only in
`throw_on_SI` mode: the capped modes catch it internally), with the
pairs already written to the sink as payload. -/
def self_intersections_impl {P : Type}
    (gen : List (FaceBox P) → List (FaceBox P × FaceBox P))
    (shuffle : List (FaceBox P) → List (FaceBox P))
    (tag : ConcurrencyTag) (K : Kernel P) (M : Mesh) (vpm : Nat → P)
    (faceRange : List Nat) (throwOnSI : Bool) (cap : Option Nat) :
    Except (List (Nat × Nat)) (List (Nat × Nat)) :=
  if cap.isSome = true ∧ cap.getD 0 = 0 then
    .ok []
  else
    match buildBoxes K M vpm throwOnSI cap.isSome (cap.getD 0) faceRange 0 [] [] with
    | .thrown _ out => .error out
    | .capReached out => .ok out
    | .done boxes out counter =>
      match tag with
      | .Parallel =>
        if throwOnSI = true then
          if anyPairAccepted K M vpm (gen (shuffle boxes)) = true then
            .error out
          else
            .ok out
        else if cap.isSome = true then
          .ok (out ++ limitedPairsPar K M vpm (cap.getD 0) (gen (shuffle boxes)) counter)
        else
          .ok (out ++ unlimitedPairs K M vpm (gen (shuffle boxes)))
      | .Sequential =>
        if throwOnSI = true then
          if anyPairAccepted K M vpm (gen boxes) = true then
            .error out
          else
            .ok out
        else if cap.isSome = true then
          .ok (out ++ limitedPairsSeq K M vpm (cap.getD 0) (gen boxes) 0)
        else
          .ok (out ++ unlimitedPairs K M vpm (gen boxes))

/-- The public `self_intersections`: `self_intersections_impl` with
`throw_on_SI = false` and no handler, so its value is exactly the
implementation's outcome. -/
def self_intersections {P : Type}
    (gen : List (FaceBox P) → List (FaceBox P × FaceBox P))
    (shuffle : List (FaceBox P) → List (FaceBox P))
    (tag : ConcurrencyTag) (K : Kernel P) (M : Mesh) (vpm : Nat → P)
    (faceRange : List Nat) (cap : Option Nat) :
    Except (List (Nat × Nat)) (List (Nat × Nat)) :=
  self_intersections_impl gen shuffle tag K M vpm faceRange false cap

/-- The public `does_self_intersect`: run the implementation in
`throw_on_SI` mode over an `Emptyset_iterator`, return `true` when the
`Throw_at_output_exception` is caught, `false` on normal return. -/
def does_self_intersect {P : Type}
    (gen : List (FaceBox P) → List (FaceBox P × FaceBox P))
    (shuffle : List (FaceBox P) → List (FaceBox P))
    (tag : ConcurrencyTag) (K : Kernel P) (M : Mesh) (vpm : Nat → P)
    (faceRange : List Nat) (cap : Option Nat) : Bool :=
  match self_intersections_impl gen shuffle tag K M vpm faceRange true cap with
  | .error _ => true
  | .ok _ => false

/-- The number of degenerate faces appearing strictly before the first
occurrence of `f` in the face range: the value of the degenerate-pair
counter when the box loop reaches `f`. -/
def degenBefore {P : Type} (K : Kernel P) (M : Mesh) (vpm : Nat → P) :
    List Nat → Nat → Nat
  | [], _ => 0
  | e :: fs, f =>
    if e = f then 0
    else (if faceDegenerate K M vpm e = true then 1 else 0) + degenBefore K M vpm fs f

/-
  Concrete instances used to evaluate the development on closed inputs.
  Points are vertex identifiers (`P := Nat`); the kernel predicates are
  explicit Boolean tables, exercising the classifier and driver logic.
-/

/-- A concrete kernel on `P := Nat`: the three points of a face are
collinear exactly when the first one is vertex 0; all do-intersect
tests answer true; coplanarity always fails. -/
def K0 : Kernel Nat where
  collinear := fun p _ _ => p == 0
  coplanar := fun _ _ _ _ => false
  coplanar_orientation := fun _ _ _ _ => Orientation.COLLINEAR
  do_intersect_tt := fun _ _ => true
  do_intersect_ts := fun _ _ => true

/-- A concrete kernel on `P := Nat` in which nothing is degenerate and
nothing intersects. -/
def K1 : Kernel Nat where
  collinear := fun _ _ _ => false
  coplanar := fun _ _ _ _ => false
  coplanar_orientation := fun _ _ _ _ => Orientation.COLLINEAR
  do_intersect_tt := fun _ _ => false
  do_intersect_ts := fun _ _ => false

/-- Successor half-edge inside a triangle whose half-edges are
`3f, 3f+1, 3f+2`. -/
def triNext (h : Nat) : Nat :=
  if h % 3 = 2 then h - 2 else h + 1

/-- Predecessor half-edge inside such a triangle. -/
def triPrev (h : Nat) : Nat :=
  if h % 3 = 0 then h + 2 else h - 1

/-- A mesh of disjoint triangles: face `f` has half-edges
`3f, 3f+1, 3f+2`, each targeting its own vertex (vertex id = half-edge
id), with all opposite half-edges on a border face `1000000`, so no two
faces share an edge or a vertex. -/
def triMesh : Mesh where
  target := fun h => if h < 1000 then h else triPrev (h - 1000)
  next := fun h => if h < 1000 then triNext h else h
  prev := fun h => if h < 1000 then triPrev h else h
  opposite := fun h => if h < 1000 then h + 1000 else h - 1000
  face := fun h => if h < 1000 then h / 3 else 1000000
  halfedge := fun f => 3 * f

/-- Two triangles sharing the edge between vertices 0 and 1:
face 0 has vertices `{0, 1, 2}` (half-edges 0, 1, 2), face 1 has
vertices `{0, 1, 3}` (half-edges 3, 4, 5); half-edges 0 and 3 are
opposite. -/
def edgeMesh : Mesh where
  target := fun h =>
    match h with
    | 0 => 1 | 1 => 2 | 2 => 0
    | 3 => 0 | 4 => 3 | 5 => 1
    | 11 => 1 | 12 => 2
    | 14 => 0 | 15 => 3
    | _ => 77
  next := fun h =>
    match h with
    | 0 => 1 | 1 => 2 | 2 => 0
    | 3 => 4 | 4 => 5 | 5 => 3
    | _ => h
  prev := fun h =>
    match h with
    | 0 => 2 | 1 => 0 | 2 => 1
    | 3 => 5 | 4 => 3 | 5 => 4
    | _ => h
  opposite := fun h =>
    match h with
    | 0 => 3 | 3 => 0
    | _ => 10 + h
  face := fun h =>
    match h with
    | 0 => 0 | 1 => 0 | 2 => 0
    | 3 => 1 | 4 => 1 | 5 => 1
    | _ => 99
  halfedge := fun f => if f = 0 then 0 else 3

/-- Two triangles sharing only vertex 0: face 0 has vertices
`{0, 1, 2}` (half-edges 0, 1, 2), face 1 has vertices `{0, 3, 4}`
(half-edges 3, 4, 5); every opposite half-edge lies on a border
face 99. -/
def vertMesh : Mesh where
  target := fun h =>
    match h with
    | 0 => 1 | 1 => 2 | 2 => 0
    | 3 => 3 | 4 => 4 | 5 => 0
    | 10 => 0 | 11 => 1 | 12 => 2
    | 13 => 0 | 14 => 3 | 15 => 4
    | _ => 77
  next := fun h =>
    match h with
    | 0 => 1 | 1 => 2 | 2 => 0
    | 3 => 4 | 4 => 5 | 5 => 3
    | _ => h
  prev := fun h =>
    match h with
    | 0 => 2 | 1 => 0 | 2 => 1
    | 3 => 5 | 4 => 3 | 5 => 4
    | _ => h
  opposite := fun h => 10 + h
  face := fun h =>
    match h with
    | 0 => 0 | 1 => 0 | 2 => 0
    | 3 => 1 | 4 => 1 | 5 => 1
    | _ => 99
  halfedge := fun f => if f = 0 then 0 else 3

/-- A concrete candidate generator pairing up the box list two by two:
`[b1, b2, b3, b4, ...] ↦ [(b1, b2), (b3, b4), ...]`. -/
def pairUp {P : Type} : List (FaceBox P) → List (FaceBox P × FaceBox P)
  | a :: b :: rest => (a, b) :: pairUp rest
  | _ => []

/-
  Helper lemmas.
-/

/-- When the shared-vertex search succeeds, the reported indices do
name a common vertex handle. -/
theorem firstSharedVertex_shares (hv gv : Nat → Nat) (i j : Nat)
    (hV : firstSharedVertex hv gv = some (i, j)) : hv i = gv j := by
  unfold firstSharedVertex at hV
  split_ifs at hV
  all_goals first
  | exact Option.noConfusion hV
  | (rw [Option.some.injEq, Prod.mk.injEq] at hV
     obtain ⟨rfl, rfl⟩ := hV
     assumption)

/-
  Claim theorems: the narrow-phase classifier.
-/

/-- C1: for faces sharing a boundary edge (the opposite of the first
face's `i`-th half-edge belongs to the second face, `i` being the first
such index found by the loop), `do_faces_intersect` reports an
intersection if and only if the apex of the second triangle opposite
the shared edge is coplanar with the first triangle's three vertices
and the coplanar orientation test of that apex relative to the shared
edge ordering is `POSITIVE`; in every other case with a shared edge it
reports false, regardless of the kernel's do-intersect predicates. -/
theorem do_faces_intersect_shared_edge {P : Type} (K : Kernel P) (M : Mesh)
    (vpm : Nat → P) (h g i : Nat)
    (hE : firstSharedEdge M h g = some i) :
    do_faces_intersect K M vpm h g = true ↔
      (K.coplanar (vpm (hvOf M h i)) (vpm (hvOf M h ((i + 1) % 3)))
          (vpm (hvOf M h ((i + 2) % 3)))
          (vpm (M.target (M.next (M.opposite (nextIter M h i))))) = true ∧
        K.coplanar_orientation (vpm (hvOf M h ((i + 2) % 3))) (vpm (hvOf M h i))
          (vpm (hvOf M h ((i + 1) % 3)))
          (vpm (M.target (M.next (M.opposite (nextIter M h i))))) =
          Orientation.POSITIVE) := by
  simp [do_faces_intersect, hE]

/-- Witness for C1: the two faces of `edgeMesh` share the edge between
vertices 0 and 1; with kernel `K0` the coplanarity test fails, so the
classifier reports false. -/
theorem do_faces_intersect_shared_edge_witness :
    do_faces_intersect K0 edgeMesh (fun v => v) 0 3 = true ↔
      (K0.coplanar ((fun v => v) (hvOf edgeMesh 0 0))
          ((fun v => v) (hvOf edgeMesh 0 ((0 + 1) % 3)))
          ((fun v => v) (hvOf edgeMesh 0 ((0 + 2) % 3)))
          ((fun v => v) (edgeMesh.target (edgeMesh.next (edgeMesh.opposite
            (nextIter edgeMesh 0 0))))) = true ∧
        K0.coplanar_orientation ((fun v => v) (hvOf edgeMesh 0 ((0 + 2) % 3)))
          ((fun v => v) (hvOf edgeMesh 0 0))
          ((fun v => v) (hvOf edgeMesh 0 ((0 + 1) % 3)))
          ((fun v => v) (edgeMesh.target (edgeMesh.next (edgeMesh.opposite
            (nextIter edgeMesh 0 0))))) = Orientation.POSITIVE) :=
  do_faces_intersect_shared_edge K0 edgeMesh (fun v => v) 0 3 0 (by decide)

/-- C2: for faces sharing no boundary edge but at least one vertex
(compared by handle identity; `(i, j)` are the indices found by the
search loop), `do_faces_intersect` reports an intersection if and only
if the first triangle intersects the opposite segment of the second or
the second triangle intersects the opposite segment of the first, as
decided by the kernel's triangle/segment do-intersect predicate. -/
theorem do_faces_intersect_shared_vertex {P : Type} (K : Kernel P) (M : Mesh)
    (vpm : Nat → P) (h g i j : Nat)
    (hE : firstSharedEdge M h g = none)
    (hV : firstSharedVertex (hvOf M h) (hvOf M g) = some (i, j)) :
    hvOf M h i = hvOf M g j ∧
      (do_faces_intersect K M vpm h g = true ↔
        (K.do_intersect_ts (faceTriangle M vpm h) (oppositeSegment M vpm g j) = true ∨
          K.do_intersect_ts (faceTriangle M vpm g) (oppositeSegment M vpm h i) = true)) := by
  refine ⟨firstSharedVertex_shares _ _ _ _ hV, ?_⟩
  simp [do_faces_intersect, hE, hV]

/-- Witness for C2: the two faces of `vertMesh` share exactly vertex 0,
found at indices `(2, 2)`; with kernel `K0` the triangle/segment test
answers true, so the classifier reports true. -/
theorem do_faces_intersect_shared_vertex_witness :
    hvOf vertMesh 0 2 = hvOf vertMesh 3 2 ∧
      (do_faces_intersect K0 vertMesh (fun v => v) 0 3 = true ↔
        (K0.do_intersect_ts (faceTriangle vertMesh (fun v => v) 0)
            (oppositeSegment vertMesh (fun v => v) 3 2) = true ∨
          K0.do_intersect_ts (faceTriangle vertMesh (fun v => v) 3)
            (oppositeSegment vertMesh (fun v => v) 0 2) = true)) :=
  do_faces_intersect_shared_vertex K0 vertMesh (fun v => v) 0 3 2 2
    (by decide) (by decide)

/-- C3: for faces sharing neither an edge nor a vertex,
`do_faces_intersect` returns exactly the kernel's triangle/triangle
do-intersect predicate applied to the triangles built from the two
faces' vertex positions. -/
theorem do_faces_intersect_no_sharing {P : Type} (K : Kernel P) (M : Mesh)
    (vpm : Nat → P) (h g : Nat)
    (hE : ∀ i, i < 3 → M.face (M.opposite (nextIter M h i)) ≠ M.face g)
    (hV : ∀ i j, i < 3 → j < 3 → hvOf M h i ≠ hvOf M g j) :
    do_faces_intersect K M vpm h g =
      K.do_intersect_tt (faceTriangle M vpm h) (faceTriangle M vpm g) := by
  have he : firstSharedEdge M h g = none := by
    unfold firstSharedEdge
    rw [if_neg (hE 0 (by norm_num)), if_neg (hE 1 (by norm_num)),
      if_neg (hE 2 (by norm_num))]
  have hw : firstSharedVertex (hvOf M h) (hvOf M g) = none := by
    unfold firstSharedVertex
    rw [if_neg (hV 0 0 (by norm_num) (by norm_num)),
      if_neg (hV 0 1 (by norm_num) (by norm_num)),
      if_neg (hV 0 2 (by norm_num) (by norm_num)),
      if_neg (hV 1 0 (by norm_num) (by norm_num)),
      if_neg (hV 1 1 (by norm_num) (by norm_num)),
      if_neg (hV 1 2 (by norm_num) (by norm_num)),
      if_neg (hV 2 0 (by norm_num) (by norm_num)),
      if_neg (hV 2 1 (by norm_num) (by norm_num)),
      if_neg (hV 2 2 (by norm_num) (by norm_num))]
  simp [do_faces_intersect, he, hw]

/-- Witness for C3: faces 1 and 2 of `triMesh` share nothing; the
classifier returns the triangle/triangle test (true under `K0`). -/
theorem do_faces_intersect_no_sharing_witness :
    do_faces_intersect K0 triMesh (fun v => v) 3 6 =
      K0.do_intersect_tt (faceTriangle triMesh (fun v => v) 3)
        (faceTriangle triMesh (fun v => v) 6) :=
  do_faces_intersect_no_sharing K0 triMesh (fun v => v) 3 6
    (by intro i hi; interval_cases i <;> decide)
    (by intro i j hi hj; interval_cases i <;> interval_cases j <;> decide)

/-
  Helper lemmas on the box-building loop.
-/

/-- With `throw_on_SI` off, the box loop never throws: it either
returns early on the cap or completes. -/
theorem buildBoxes_false_cases {P : Type} (K : Kernel P) (M : Mesh) (vpm : Nat → P)
    (dl : Bool) (mx : Nat) :
    ∀ (fr : List Nat) (c : Nat) (bx : List (FaceBox P)) (out : List (Nat × Nat)),
      (∃ o, buildBoxes K M vpm false dl mx fr c bx out = .capReached o) ∨
      (∃ bs o c', buildBoxes K M vpm false dl mx fr c bx out = .done bs o c') := by
  intro fr
  induction fr with
  | nil => intro c bx out; exact Or.inr ⟨bx, out, c, rfl⟩
  | cons f fs ih =>
    intro c bx out
    by_cases hd : faceDegenerate K M vpm f = true
    · by_cases hc : dl = true ∧ c + 1 = mx
      · exact Or.inl ⟨out ++ [(f, f)], by simp [buildBoxes, hd, hc]⟩
      · have := ih (c + 1) bx (out ++ [(f, f)])
        simpa [buildBoxes, hd, hc] using this
    · have := ih c (bx ++ [mkBox M vpm f]) out
      simpa [buildBoxes, hd] using this

/-- With `throw_on_SI` off, everything the box loop writes beyond the
incoming sink contents is a degenerate self-pair of a face of the
range. -/
theorem buildBoxes_out_spec {P : Type} (K : Kernel P) (M : Mesh) (vpm : Nat → P)
    (dl : Bool) (mx : Nat) :
    ∀ (fr : List Nat) (c : Nat) (bx : List (FaceBox P)) (out : List (Nat × Nat)),
      ∃ l, (buildBoxes K M vpm false dl mx fr c bx out).outList = out ++ l ∧
        ∀ q ∈ l, ∃ e, e ∈ fr ∧ faceDegenerate K M vpm e = true ∧ q = (e, e) := by
  intro fr
  induction fr with
  | nil =>
    intro c bx out
    exact ⟨[], by simp [buildBoxes, BuildResult.outList], by simp⟩
  | cons f fs ih =>
    intro c bx out
    by_cases hd : faceDegenerate K M vpm f = true
    · by_cases hc : dl = true ∧ c + 1 = mx
      · refine ⟨[(f, f)], ?_, ?_⟩
        · simp [buildBoxes, hd, hc, BuildResult.outList]
        · intro q hq
          simp at hq
          exact ⟨f, by simp, hd, hq⟩
      · obtain ⟨l, hl, hmem⟩ := ih (c + 1) bx (out ++ [(f, f)])
        refine ⟨(f, f) :: l, ?_, ?_⟩
        · rw [show buildBoxes K M vpm false dl mx (f :: fs) c bx out
              = buildBoxes K M vpm false dl mx fs (c + 1) bx (out ++ [(f, f)]) from by
            simp [buildBoxes, hd, hc]]
          rw [hl]
          simp
        · intro q hq
          rcases List.mem_cons.mp hq with h1 | h1
          · exact ⟨f, by simp, hd, h1⟩
          · obtain ⟨e, he, hde, hqe⟩ := hmem q h1
            exact ⟨e, by simp [he], hde, hqe⟩
    · obtain ⟨l, hl, hmem⟩ := ih c (bx ++ [mkBox M vpm f]) out
      refine ⟨l, ?_, ?_⟩
      · rw [show buildBoxes K M vpm false dl mx (f :: fs) c bx out
            = buildBoxes K M vpm false dl mx fs c (bx ++ [mkBox M vpm f]) out from by
          simp [buildBoxes, hd]]
        exact hl
      · intro q hq
        obtain ⟨e, he, hde, hqe⟩ := hmem q hq
        exact ⟨e, by simp [he], hde, hqe⟩

/-- With `throw_on_SI` off, a degenerate face of the range whose
degenerate predecessors leave the counter strictly below the cap gets
its self-pair written. -/
theorem buildBoxes_mem_out {P : Type} (K : Kernel P) (M : Mesh) (vpm : Nat → P)
    (dl : Bool) (mx : Nat) (f : Nat) (hdeg : faceDegenerate K M vpm f = true) :
    ∀ (fr : List Nat) (c : Nat) (bx : List (FaceBox P)) (out : List (Nat × Nat)),
      f ∈ fr →
      (dl = true → c + degenBefore K M vpm fr f < mx) →
      (f, f) ∈ (buildBoxes K M vpm false dl mx fr c bx out).outList := by
  intro fr
  induction fr with
  | nil => intro c bx out hf _; exact absurd hf (List.not_mem_nil f)
  | cons e fs ih =>
    intro c bx out hf hcap
    by_cases hef : e = f
    · subst hef
      by_cases hc : dl = true ∧ c + 1 = mx
      · simp [buildBoxes, hdeg, hc, BuildResult.outList]
      · obtain ⟨l, hl, _⟩ := buildBoxes_out_spec K M vpm dl mx fs (c + 1) bx (out ++ [(e, e)])
        rw [show buildBoxes K M vpm false dl mx (e :: fs) c bx out
              = buildBoxes K M vpm false dl mx fs (c + 1) bx (out ++ [(e, e)]) from by
            simp [buildBoxes, hdeg, hc]]
        rw [hl]
        simp
    · have hffs : f ∈ fs := by
        rcases List.mem_cons.mp hf with h1 | h1
        · exact absurd h1.symm hef
        · exact h1
      by_cases hd : faceDegenerate K M vpm e = true
      · have hdb : degenBefore K M vpm (e :: fs) f = 1 + degenBefore K M vpm fs f := by
          simp [degenBefore, hef, hd]

        have hc : ¬(dl = true ∧ c + 1 = mx) := by
          rintro ⟨hdl, hcm⟩
          have := hcap hdl
          rw [hdb] at this
          omega
        rw [show buildBoxes K M vpm false dl mx (e :: fs) c bx out
              = buildBoxes K M vpm false dl mx fs (c + 1) bx (out ++ [(e, e)]) from by
            simp [buildBoxes, hd, hc]]
        refine ih (c + 1) bx (out ++ [(e, e)]) hffs ?_
        intro hdl
        have := hcap hdl
        rw [hdb] at this
        omega
      · have hdb : degenBefore K M vpm (e :: fs) f = degenBefore K M vpm fs f := by
          simp [degenBefore, hef, hd]
        rw [show buildBoxes K M vpm false dl mx (e :: fs) c bx out
              = buildBoxes K M vpm false dl mx fs c (bx ++ [mkBox M vpm e]) out from by
            simp [buildBoxes, hd]]
        refine ih c (bx ++ [mkBox M vpm e]) out hffs ?_
        intro hdl
        have := hcap hdl
        rw [hdb] at this
        omega

/-- With `throw_on_SI` off, every box in the completed box list is
either an incoming one or the box of a non-degenerate face of the
range. -/
theorem buildBoxes_box_spec {P : Type} (K : Kernel P) (M : Mesh) (vpm : Nat → P)
    (dl : Bool) (mx : Nat) :
    ∀ (fr : List Nat) (c : Nat) (bx : List (FaceBox P)) (out : List (Nat × Nat))
      (bs : List (FaceBox P)) (o : List (Nat × Nat)) (c' : Nat),
      buildBoxes K M vpm false dl mx fr c bx out = .done bs o c' →
      ∀ b ∈ bs, b ∈ bx ∨
        ∃ e, e ∈ fr ∧ faceDegenerate K M vpm e = false ∧ b = mkBox M vpm e := by
  intro fr
  induction fr with
  | nil =>
    intro c bx out bs o c' hbb b hb
    rw [show buildBoxes K M vpm false dl mx [] c bx out = .done bx out c from rfl] at hbb
    cases hbb
    exact Or.inl hb
  | cons f fs ih =>
    intro c bx out bs o c' hbb b hb
    by_cases hd : faceDegenerate K M vpm f = true
    · by_cases hc : dl = true ∧ c + 1 = mx
      · rw [show buildBoxes K M vpm false dl mx (f :: fs) c bx out
            = .capReached (out ++ [(f, f)]) from by simp [buildBoxes, hd, hc]] at hbb
        exact BuildResult.noConfusion hbb
      · rw [show buildBoxes K M vpm false dl mx (f :: fs) c bx out
            = buildBoxes K M vpm false dl mx fs (c + 1) bx (out ++ [(f, f)]) from by
          simp [buildBoxes, hd, hc]] at hbb
        rcases ih _ _ _ _ _ _ hbb b hb with h1 | ⟨e, he, hde, hbe⟩
        · exact Or.inl h1
        · exact Or.inr ⟨e, by simp [he], hde, hbe⟩
    · rw [show buildBoxes K M vpm false dl mx (f :: fs) c bx out
          = buildBoxes K M vpm false dl mx fs c (bx ++ [mkBox M vpm f]) out from by
        simp [buildBoxes, hd]] at hbb
      rcases ih _ _ _ _ _ _ hbb b hb with h1 | ⟨e, he, hde, hbe⟩
      · rcases List.mem_append.mp h1 with h2 | h2
        · exact Or.inl h2
        · exact Or.inr ⟨f, by simp, by simpa using hd, by simpa using h2⟩
      · exact Or.inr ⟨e, by simp [he], hde, hbe⟩

/-- When no face of the range is degenerate, the box loop completes
with exactly one box per face, in range order, writing nothing,
whatever the mode and cap flags. -/
theorem buildBoxes_no_degen {P : Type} (K : Kernel P) (M : Mesh) (vpm : Nat → P)
    (t dl : Bool) (mx : Nat) :
    ∀ (fr : List Nat) (c : Nat) (bx : List (FaceBox P)) (out : List (Nat × Nat)),
      (∀ e ∈ fr, faceDegenerate K M vpm e = false) →
      buildBoxes K M vpm t dl mx fr c bx out = .done (bx ++ fr.map (mkBox M vpm)) out c := by
  intro fr
  induction fr with
  | nil => intro c bx out _; simp [buildBoxes]
  | cons f fs ih =>
    intro c bx out hnd
    have hf : faceDegenerate K M vpm f = false := hnd f (by simp)
    rw [show buildBoxes K M vpm t dl mx (f :: fs) c bx out
        = buildBoxes K M vpm t dl mx fs c (bx ++ [mkBox M vpm f]) out from by
      simp [buildBoxes, hf]]
    rw [ih c (bx ++ [mkBox M vpm f]) out (fun e he => hnd e (by simp [he]))]
    simp

/-- With `throw_on_SI` on and some face of the range degenerate, the
box loop throws at the first degenerate face, having written nothing
and built boxes only for the faces before it. -/
theorem buildBoxes_throw {P : Type} (K : Kernel P) (M : Mesh) (vpm : Nat → P)
    (dl : Bool) (mx : Nat) :
    ∀ (fr : List Nat) (c : Nat) (bx : List (FaceBox P)) (out : List (Nat × Nat)),
      (∃ e, e ∈ fr ∧ faceDegenerate K M vpm e = true) →
      buildBoxes K M vpm true dl mx fr c bx out =
        .thrown (bx ++ ((fr.takeWhile fun e => !faceDegenerate K M vpm e).map (mkBox M vpm)))
          out := by
  intro fr
  induction fr with
  | nil => rintro c bx out ⟨e, he, _⟩; exact absurd he (List.not_mem_nil e)
  | cons f fs ih =>
    intro c bx out hex
    by_cases hd : faceDegenerate K M vpm f = true
    · have ht : ((f :: fs).takeWhile fun e => !faceDegenerate K M vpm e) = [] := by
        simp [List.takeWhile_cons, hd]
      rw [ht]
      simp [buildBoxes, hd]
    · obtain ⟨e, he, hde⟩ := hex
      have hefs : e ∈ fs := by
        rcases List.mem_cons.mp he with h1 | h1
        · exact absurd (h1 ▸ hde) hd
        · exact h1
      have ht : ((f :: fs).takeWhile fun e => !faceDegenerate K M vpm e)
          = f :: (fs.takeWhile fun e => !faceDegenerate K M vpm e) := by
        simp [List.takeWhile_cons, hd]
      rw [ht]
      rw [show buildBoxes K M vpm true dl mx (f :: fs) c bx out
          = buildBoxes K M vpm true dl mx fs c (bx ++ [mkBox M vpm f]) out from by
        simp [buildBoxes, hd]]
      rw [ih c (bx ++ [mkBox M vpm f]) out ⟨e, hefs, hde⟩]
      simp

/-
  Helper lemmas on the narrow-phase collection loops.
-/

/-- Every pair the uncapped filter emits comes from a candidate pair. -/
theorem unlimitedPairs_mem {P : Type} (K : Kernel P) (M : Mesh) (vpm : Nat → P) :
    ∀ (l : List (FaceBox P × FaceBox P)) (q : Nat × Nat),
      q ∈ unlimitedPairs K M vpm l →
      ∃ b c, (b, c) ∈ l ∧ q = (b.info, c.info) := by
  intro l
  induction l with
  | nil => intro q hq; simp [unlimitedPairs] at hq
  | cons bc rest ih =>
    intro q hq
    obtain ⟨b, c⟩ := bc
    by_cases ha : acceptPair K M vpm b c = true
    · rw [show unlimitedPairs K M vpm ((b, c) :: rest)
          = (b.info, c.info) :: unlimitedPairs K M vpm rest from by
        simp [unlimitedPairs, ha]] at hq
      rcases List.mem_cons.mp hq with h1 | h1
      · exact ⟨b, c, by simp, h1⟩
      · obtain ⟨b', c', hm, hqe⟩ := ih q h1
        exact ⟨b', c', by simp [hm], hqe⟩
    · rw [show unlimitedPairs K M vpm ((b, c) :: rest)
          = unlimitedPairs K M vpm rest from by simp [unlimitedPairs, ha]] at hq
      obtain ⟨b', c', hm, hqe⟩ := ih q hq
      exact ⟨b', c', by simp [hm], hqe⟩

/-- Every pair the sequential capped filter emits comes from a
candidate pair. -/
theorem limitedPairsSeq_mem {P : Type} (K : Kernel P) (M : Mesh) (vpm : Nat → P)
    (mx : Nat) :
    ∀ (l : List (FaceBox P × FaceBox P)) (n : Nat) (q : Nat × Nat),
      q ∈ limitedPairsSeq K M vpm mx l n →
      ∃ b c, (b, c) ∈ l ∧ q = (b.info, c.info) := by
  intro l
  induction l with
  | nil => intro n q hq; simp [limitedPairsSeq] at hq
  | cons bc rest ih =>
    intro n q hq
    obtain ⟨b, c⟩ := bc
    by_cases ha : acceptPair K M vpm b c = true
    · by_cases hn : n + 1 = mx
      · rw [show limitedPairsSeq K M vpm mx ((b, c) :: rest) n
            = [(b.info, c.info)] from by simp [limitedPairsSeq, ha, hn]] at hq
        simp at hq
        exact ⟨b, c, by simp, hq⟩
      · rw [show limitedPairsSeq K M vpm mx ((b, c) :: rest) n
            = (b.info, c.info) :: limitedPairsSeq K M vpm mx rest (n + 1) from by
          simp [limitedPairsSeq, ha, hn]] at hq
        rcases List.mem_cons.mp hq with h1 | h1
        · exact ⟨b, c, by simp, h1⟩
        · obtain ⟨b', c', hm, hqe⟩ := ih (n + 1) q h1
          exact ⟨b', c', by simp [hm], hqe⟩
    · rw [show limitedPairsSeq K M vpm mx ((b, c) :: rest) n
          = limitedPairsSeq K M vpm mx rest n from by simp [limitedPairsSeq, ha]] at hq
      obtain ⟨b', c', hm, hqe⟩ := ih n q hq
      exact ⟨b', c', by simp [hm], hqe⟩

/-- Every pair the parallel capped filter collects comes from a
candidate pair. -/
theorem limitedPairsPar_mem {P : Type} (K : Kernel P) (M : Mesh) (vpm : Nat → P)
    (mx : Nat) :
    ∀ (l : List (FaceBox P × FaceBox P)) (n : Nat) (q : Nat × Nat),
      q ∈ limitedPairsPar K M vpm mx l n →
      ∃ b c, (b, c) ∈ l ∧ q = (b.info, c.info) := by
  intro l
  induction l with
  | nil => intro n q hq; simp [limitedPairsPar] at hq
  | cons bc rest ih =>
    intro n q hq
    obtain ⟨b, c⟩ := bc
    by_cases ha : acceptPair K M vpm b c = true
    · by_cases hn : mx ≤ n + 1
      · rw [show limitedPairsPar K M vpm mx ((b, c) :: rest) n
            = [(b.info, c.info)] from by simp [limitedPairsPar, ha, hn]] at hq
        simp at hq
        exact ⟨b, c, by simp, hq⟩
      · rw [show limitedPairsPar K M vpm mx ((b, c) :: rest) n
            = (b.info, c.info) :: limitedPairsPar K M vpm mx rest (n + 1) from by
          simp [limitedPairsPar, ha, hn]] at hq
        rcases List.mem_cons.mp hq with h1 | h1
        · exact ⟨b, c, by simp, h1⟩
        · obtain ⟨b', c', hm, hqe⟩ := ih (n + 1) q h1
          exact ⟨b', c', by simp [hm], hqe⟩
    · rw [show limitedPairsPar K M vpm mx ((b, c) :: rest) n
          = limitedPairsPar K M vpm mx rest n from by simp [limitedPairsPar, ha]] at hq
      obtain ⟨b', c', hm, hqe⟩ := ih n q hq
      exact ⟨b', c', by simp [hm], hqe⟩

/-- The uncapped filter emits nothing exactly when the throwing filter
stays silent on the same candidate list. -/
theorem unlimitedPairs_eq_nil_iff {P : Type} (K : Kernel P) (M : Mesh) (vpm : Nat → P) :
    ∀ (l : List (FaceBox P × FaceBox P)),
      unlimitedPairs K M vpm l = [] ↔ anyPairAccepted K M vpm l = false := by
  intro l
  induction l with
  | nil => simp [unlimitedPairs, anyPairAccepted]
  | cons bc rest ih =>
    obtain ⟨b, c⟩ := bc
    by_cases ha : acceptPair K M vpm b c = true
    · simp [unlimitedPairs, anyPairAccepted, ha]
    · simp only [unlimitedPairs, anyPairAccepted, List.any_cons] at ih ⊢
      simp [ha, ih]

/-- When the `maximum_number` parameter is absent or nonzero, the
early-return guard of `self_intersections_impl` is not taken. -/
theorem cap_guard_false (cap : Option Nat) (hcap : cap ≠ some 0) :
    ¬(Option.isSome cap = true ∧ Option.getD cap 0 = 0) := by
  cases cap with
  | none => simp
  | some k =>
    simp only [Option.isSome_some, Option.getD_some, true_and]
    intro hk
    exact hcap (by rw [hk])

/-- With `throw_on_SI` off and no cap, the box loop always completes. -/
theorem buildBoxes_no_limit_done {P : Type} (K : Kernel P) (M : Mesh) (vpm : Nat → P)
    (mx : Nat) :
    ∀ (fr : List Nat) (c : Nat) (bx : List (FaceBox P)) (out : List (Nat × Nat)),
      ∃ bs o c', buildBoxes K M vpm false false mx fr c bx out = .done bs o c' := by
  intro fr
  induction fr with
  | nil => intro c bx out; exact ⟨bx, out, c, rfl⟩
  | cons f fs ih =>
    intro c bx out
    by_cases hd : faceDegenerate K M vpm f = true
    · have := ih (c + 1) bx (out ++ [(f, f)])
      simpa [buildBoxes, hd] using this
    · have := ih c (bx ++ [mkBox M vpm f]) out
      simpa [buildBoxes, hd] using this

/-- With `throw_on_SI` off, `self_intersections_impl` always returns
normally: the cap-reached signal is caught inside the function. -/
theorem self_intersections_impl_false_ok {P : Type}
    (gen : List (FaceBox P) → List (FaceBox P × FaceBox P))
    (shuffle : List (FaceBox P) → List (FaceBox P))
    (tag : ConcurrencyTag) (K : Kernel P) (M : Mesh) (vpm : Nat → P)
    (fr : List Nat) (cap : Option Nat) :
    ∃ l, self_intersections_impl gen shuffle tag K M vpm fr false cap = .ok l := by
  by_cases hguard : Option.isSome cap = true ∧ Option.getD cap 0 = 0
  · exact ⟨[], by unfold self_intersections_impl; rw [if_pos hguard]⟩
  · rcases buildBoxes_false_cases K M vpm cap.isSome (cap.getD 0) fr 0 [] []
      with ⟨o, ho⟩ | ⟨bs, o, c', ho⟩
    · exact ⟨o, by unfold self_intersections_impl; rw [if_neg hguard, ho]⟩
    · cases tag with
      | Sequential =>
        by_cases hdl : Option.isSome cap = true
        · exact ⟨o ++ limitedPairsSeq K M vpm (cap.getD 0) (gen bs) 0, by
            unfold self_intersections_impl
            rw [if_neg hguard, ho]
            simp [hdl]⟩
        · exact ⟨o ++ unlimitedPairs K M vpm (gen bs), by
            unfold self_intersections_impl
            rw [if_neg hguard, ho]
            simp [hdl]⟩
      | Parallel =>
        by_cases hdl : Option.isSome cap = true
        · exact ⟨o ++ limitedPairsPar K M vpm (cap.getD 0) (gen (shuffle bs)) c', by
            unfold self_intersections_impl
            rw [if_neg hguard, ho]
            simp [hdl]⟩
        · exact ⟨o ++ unlimitedPairs K M vpm (gen (shuffle bs)), by
            unfold self_intersections_impl
            rw [if_neg hguard, ho]
            simp [hdl]⟩

/-- Structure of an enumerate-mode run (cap absent or nonzero): the
output is the box loop's degenerate self-pairs followed by pairs of
non-degenerate faces, provided the candidate generator only pairs
boxes from its input and the shuffle only permutes its input. -/
theorem self_intersections_structure {P : Type}
    (gen : List (FaceBox P) → List (FaceBox P × FaceBox P))
    (shuffle : List (FaceBox P) → List (FaceBox P))
    (tag : ConcurrencyTag) (K : Kernel P) (M : Mesh) (vpm : Nat → P)
    (fr : List Nat) (cap : Option Nat)
    (hgen : ∀ bs p, p ∈ gen bs → p.1 ∈ bs ∧ p.2 ∈ bs)
    (hsh : ∀ bs b, b ∈ shuffle bs → b ∈ bs)
    (hcap : cap ≠ some 0) :
    ∃ ps, self_intersections gen shuffle tag K M vpm fr cap =
        .ok ((buildBoxes K M vpm false cap.isSome (cap.getD 0) fr 0 [] []).outList ++ ps) ∧
      ∀ q ∈ ps, faceDegenerate K M vpm q.1 = false ∧ faceDegenerate K M vpm q.2 = false := by
  have hguard := cap_guard_false cap hcap
  rcases buildBoxes_false_cases K M vpm cap.isSome (cap.getD 0) fr 0 [] []
    with ⟨o, ho⟩ | ⟨bs, o, c', ho⟩
  · refine ⟨[], ?_, by simp⟩
    unfold self_intersections self_intersections_impl
    rw [if_neg hguard, ho]
    simp [BuildResult.outList]
  · have hboxmem : ∀ b ∈ bs, faceDegenerate K M vpm b.info = false := by
      intro b hb
      rcases buildBoxes_box_spec K M vpm cap.isSome (cap.getD 0) fr 0 [] [] bs o c' ho b hb
        with h1 | ⟨e, _, hde, hbe⟩
      · exact absurd h1 (List.not_mem_nil b)
      · rw [hbe]
        simpa [mkBox] using hde
    cases tag with
    | Sequential =>
      by_cases hdl : Option.isSome cap = true
      · refine ⟨limitedPairsSeq K M vpm (cap.getD 0) (gen bs) 0, ?_, ?_⟩
        · unfold self_intersections self_intersections_impl
          rw [if_neg hguard, ho]
          simp [hdl, BuildResult.outList]
        · intro q hq
          obtain ⟨b, c, hm, hqe⟩ := limitedPairsSeq_mem K M vpm (cap.getD 0) (gen bs) 0 q hq
          have hmem := hgen bs (b, c) hm
          subst hqe
          exact ⟨hboxmem b hmem.1, hboxmem c hmem.2⟩
      · refine ⟨unlimitedPairs K M vpm (gen bs), ?_, ?_⟩
        · unfold self_intersections self_intersections_impl
          rw [if_neg hguard, ho]
          simp [hdl, BuildResult.outList]
        · intro q hq
          obtain ⟨b, c, hm, hqe⟩ := unlimitedPairs_mem K M vpm (gen bs) q hq
          have hmem := hgen bs (b, c) hm
          subst hqe
          exact ⟨hboxmem b hmem.1, hboxmem c hmem.2⟩
    | Parallel =>
      by_cases hdl : Option.isSome cap = true
      · refine ⟨limitedPairsPar K M vpm (cap.getD 0) (gen (shuffle bs)) c', ?_, ?_⟩
        · unfold self_intersections self_intersections_impl
          rw [if_neg hguard, ho]
          simp [hdl, BuildResult.outList]
        · intro q hq
          obtain ⟨b, c, hm, hqe⟩ :=
            limitedPairsPar_mem K M vpm (cap.getD 0) (gen (shuffle bs)) c' q hq
          have hmem := hgen (shuffle bs) (b, c) hm
          subst hqe
          exact ⟨hboxmem b (hsh bs b hmem.1), hboxmem c (hsh bs c hmem.2)⟩
      · refine ⟨unlimitedPairs K M vpm (gen (shuffle bs)), ?_, ?_⟩
        · unfold self_intersections self_intersections_impl
          rw [if_neg hguard, ho]
          simp [hdl, BuildResult.outList]
        · intro q hq
          obtain ⟨b, c, hm, hqe⟩ := unlimitedPairs_mem K M vpm (gen (shuffle bs)) q hq
          have hmem := hgen (shuffle bs) (b, c) hm
          subst hqe
          exact ⟨hboxmem b (hsh bs b hmem.1), hboxmem c (hsh bs c hmem.2)⟩

/-- Every pair `pairUp` forms takes both components from its input. -/
theorem pairUp_mem_sound {P : Type} :
    ∀ (bs : List (FaceBox P)) (p : FaceBox P × FaceBox P),
      p ∈ pairUp bs → p.1 ∈ bs ∧ p.2 ∈ bs
  | a :: b :: rest, p, hp => by
    rw [show pairUp (a :: b :: rest) = (a, b) :: pairUp rest from rfl] at hp
    rcases List.mem_cons.mp hp with h1 | h1
    · subst h1
      exact ⟨by simp, by simp⟩
    · have := pairUp_mem_sound rest p h1
      exact ⟨by simp [this.1], by simp [this.2]⟩
  | [], p, hp => by simp [pairUp] at hp
  | [a], p, hp => by simp [pairUp] at hp

/-
  Claim theorems: the query drivers.
-/

/-- C4 (code-bug evidence): a sequential enumerate run with
`maximum_number = 2` on a range whose first face is degenerate and
whose remaining faces form two intersecting candidate pairs emits
three pairs: the degenerate self-pair written by the box loop does not
advance the counter `nbi` of the sequential capped filter (which
restarts at 0), so the output exceeds the cap. -/
theorem self_intersections_cap_overrun_eval :
    self_intersections pairUp id ConcurrencyTag.Sequential K0 triMesh (fun v => v)
      [0, 1, 2, 3, 4] (some 2) = .ok [(0, 0), (1, 2), (3, 4)] := by
  rfl

/-- C5: a degenerate face of the queried range whose self-pair is
written before the cap is reached appears in the output as `(f, f)`,
and the output is a block of degenerate self-pairs followed only by
pairs of non-degenerate faces, in both concurrency modes. -/
theorem self_intersections_degenerate_reported_first {P : Type}
    (gen : List (FaceBox P) → List (FaceBox P × FaceBox P))
    (shuffle : List (FaceBox P) → List (FaceBox P))
    (tag : ConcurrencyTag) (K : Kernel P) (M : Mesh) (vpm : Nat → P)
    (fr : List Nat) (cap : Option Nat) (f : Nat)
    (hgen : ∀ bs p, p ∈ gen bs → p.1 ∈ bs ∧ p.2 ∈ bs)
    (hsh : ∀ bs b, b ∈ shuffle bs → b ∈ bs)
    (hf : f ∈ fr) (hdeg : faceDegenerate K M vpm f = true)
    (hcap : ∀ k, cap = some k → degenBefore K M vpm fr f < k) :
    ∃ ds ps, self_intersections gen shuffle tag K M vpm fr cap = .ok (ds ++ ps) ∧
      (f, f) ∈ ds ∧
      (∀ q ∈ ds, ∃ e, e ∈ fr ∧ faceDegenerate K M vpm e = true ∧ q = (e, e)) ∧
      (∀ q ∈ ps, faceDegenerate K M vpm q.1 = false ∧ faceDegenerate K M vpm q.2 = false) := by
  have hcap0 : cap ≠ some 0 := by
    intro h0
    have := hcap 0 h0
    omega
  obtain ⟨ps, hps, hpsmem⟩ :=
    self_intersections_structure gen shuffle tag K M vpm fr cap hgen hsh hcap0
  refine ⟨(buildBoxes K M vpm false cap.isSome (cap.getD 0) fr 0 [] []).outList, ps,
    hps, ?_, ?_, hpsmem⟩
  · refine buildBoxes_mem_out K M vpm cap.isSome (cap.getD 0) f hdeg fr 0 [] [] hf ?_
    intro hdl
    cases cap with
    | none => simp at hdl
    | some k =>
      have := hcap k rfl
      simpa using this
  · obtain ⟨l, hl, hmem⟩ := buildBoxes_out_spec K M vpm cap.isSome (cap.getD 0) fr 0 [] []
    rw [hl]
    intro q hq
    simp only [List.nil_append] at hq
    exact hmem q hq

/-- Witness for C5: face 0 of `triMesh` is degenerate under `K0`; a
parallel uncapped run over `[1, 0, 2]` reports `(0, 0)` in the leading
degenerate block. -/
theorem self_intersections_degenerate_reported_first_witness :
    ∃ ds ps, self_intersections pairUp id ConcurrencyTag.Parallel K0 triMesh
        (fun v => v) [1, 0, 2] none = .ok (ds ++ ps) ∧
      (0, 0) ∈ ds ∧
      (∀ q ∈ ds, ∃ e, e ∈ [1, 0, 2] ∧
        faceDegenerate K0 triMesh (fun v => v) e = true ∧ q = (e, e)) ∧
      (∀ q ∈ ps, faceDegenerate K0 triMesh (fun v => v) q.1 = false ∧
        faceDegenerate K0 triMesh (fun v => v) q.2 = false) :=
  self_intersections_degenerate_reported_first pairUp id ConcurrencyTag.Parallel K0 triMesh
    (fun v => v) [1, 0, 2] none 0 pairUp_mem_sound (fun _ _ hb => hb)
    (by decide) (by decide) (fun _ hk => Option.noConfusion hk)

/-- C6: a degenerate face gets no box (no completed box list contains
it), and consequently the only output pair involving it is its
self-pair. -/
theorem degenerate_face_only_self_pair {P : Type}
    (gen : List (FaceBox P) → List (FaceBox P × FaceBox P))
    (shuffle : List (FaceBox P) → List (FaceBox P))
    (tag : ConcurrencyTag) (K : Kernel P) (M : Mesh) (vpm : Nat → P)
    (fr : List Nat) (cap : Option Nat) (f : Nat)
    (hgen : ∀ bs p, p ∈ gen bs → p.1 ∈ bs ∧ p.2 ∈ bs)
    (hsh : ∀ bs b, b ∈ shuffle bs → b ∈ bs)
    (hdeg : faceDegenerate K M vpm f = true)
    (hcap : cap ≠ some 0) :
    (∀ bs o c', buildBoxes K M vpm false cap.isSome (cap.getD 0) fr 0 [] [] = .done bs o c' →
      ∀ b ∈ bs, b.info ≠ f) ∧
    (∀ l, self_intersections gen shuffle tag K M vpm fr cap = .ok l →
      ∀ q ∈ l, q.1 = f ∨ q.2 = f → q = (f, f)) := by
  constructor
  · intro bs o c' hbb b hb
    rcases buildBoxes_box_spec K M vpm cap.isSome (cap.getD 0) fr 0 [] [] bs o c' hbb b hb
      with h1 | ⟨e, _, hde, hbe⟩
    · exact absurd h1 (List.not_mem_nil b)
    · intro hbf
      rw [hbe] at hbf
      simp only [mkBox] at hbf
      rw [hbf] at hde
      exact Bool.noConfusion (hde.symm.trans hdeg)
  · intro l hl q hq hqf
    obtain ⟨ps, hps, hpsmem⟩ :=
      self_intersections_structure gen shuffle tag K M vpm fr cap hgen hsh hcap
    rw [hl] at hps
    injection hps with hps
    subst hps
    rcases List.mem_append.mp hq with hq1 | hq2
    · obtain ⟨l0, hl0, hmem⟩ := buildBoxes_out_spec K M vpm cap.isSome (cap.getD 0) fr 0 [] []
      rw [hl0, List.nil_append] at hq1
      obtain ⟨e, _, _, hqe⟩ := hmem q hq1
      subst hqe
      rcases hqf with h1 | h1
      · rw [show e = f by simpa using h1]
      · rw [show e = f by simpa using h1]
    · have := hpsmem q hq2
      rcases hqf with h1 | h1
      · rw [h1] at this
        exact Bool.noConfusion (this.1.symm.trans hdeg)
      · rw [h1] at this
        exact Bool.noConfusion (this.2.symm.trans hdeg)

/-- Witness for C6: face 0 of `triMesh` is degenerate under `K0`; in a
sequential uncapped run over `[0, 1, 2]` no box carries face 0 and
every output pair involving it is `(0, 0)`. -/
theorem degenerate_face_only_self_pair_witness :
    (∀ bs o c', buildBoxes K0 triMesh (fun v => v) false
        (Option.isSome (none : Option Nat)) (Option.getD (none : Option Nat) 0)
        [0, 1, 2] 0 [] [] = .done bs o c' → ∀ b ∈ bs, b.info ≠ 0) ∧
    (∀ l, self_intersections pairUp id ConcurrencyTag.Sequential K0 triMesh (fun v => v)
        [0, 1, 2] none = .ok l →
      ∀ q ∈ l, q.1 = 0 ∨ q.2 = 0 → q = (0, 0)) :=
  degenerate_face_only_self_pair pairUp id ConcurrencyTag.Sequential K0 triMesh
    (fun v => v) [0, 1, 2] none 0 pairUp_mem_sound (fun _ _ hb => hb)
    (by decide) (by simp)

/-- C7: when the queried range contains a degenerate face (and the cap
parameter does not force the immediate empty return),
`does_self_intersect` returns true, and the throw-mode box loop stops
at the first degenerate face, having written nothing and built boxes
only for the faces preceding it. -/
theorem does_self_intersect_degenerate_true {P : Type}
    (gen : List (FaceBox P) → List (FaceBox P × FaceBox P))
    (shuffle : List (FaceBox P) → List (FaceBox P))
    (tag : ConcurrencyTag) (K : Kernel P) (M : Mesh) (vpm : Nat → P)
    (fr : List Nat) (cap : Option Nat) (f : Nat)
    (hf : f ∈ fr) (hdeg : faceDegenerate K M vpm f = true)
    (hcap : cap ≠ some 0) :
    does_self_intersect gen shuffle tag K M vpm fr cap = true ∧
      buildBoxes K M vpm true cap.isSome (cap.getD 0) fr 0 [] [] =
        .thrown ((fr.takeWhile fun e => !faceDegenerate K M vpm e).map (mkBox M vpm)) [] := by
  have hth := buildBoxes_throw K M vpm cap.isSome (cap.getD 0) fr 0 [] [] ⟨f, hf, hdeg⟩
  rw [List.nil_append] at hth
  refine ⟨?_, hth⟩
  unfold does_self_intersect self_intersections_impl
  rw [if_neg (cap_guard_false cap hcap), hth]

/-- Witness for C7: the range `[1, 0, 2]` over `triMesh` contains the
degenerate face 0; the test driver answers true and the throw-mode box
loop stops after building only face 1's box. -/
theorem does_self_intersect_degenerate_true_witness :
    does_self_intersect pairUp id ConcurrencyTag.Sequential K0 triMesh (fun v => v)
        [1, 0, 2] none = true ∧
      buildBoxes K0 triMesh (fun v => v) true (Option.isSome (none : Option Nat))
          (Option.getD (none : Option Nat) 0) [1, 0, 2] 0 [] [] =
        .thrown (([1, 0, 2].takeWhile fun e => !faceDegenerate K0 triMesh (fun v => v) e).map
          (mkBox triMesh (fun v => v))) [] :=
  does_self_intersect_degenerate_true pairUp id ConcurrencyTag.Sequential K0 triMesh
    (fun v => v) [1, 0, 2] none 0 (by decide) (by decide) (by simp)

/-- C9: the internal early-termination signals never reach the caller
as errors: an enumerate run always returns normally (the cap-reached
signal is caught inside `self_intersections_impl`, with the pairs
already written preserved), and when the witness-found signal escapes
in throw mode, `does_self_intersect` translates it into `true`. -/
theorem termination_signals_translated {P : Type}
    (gen : List (FaceBox P) → List (FaceBox P × FaceBox P))
    (shuffle : List (FaceBox P) → List (FaceBox P))
    (tag : ConcurrencyTag) (K : Kernel P) (M : Mesh) (vpm : Nat → P)
    (fr : List Nat) (cap : Option Nat) :
    (∃ l, self_intersections gen shuffle tag K M vpm fr cap = .ok l) ∧
      (∀ e, self_intersections_impl gen shuffle tag K M vpm fr true cap = .error e →
        does_self_intersect gen shuffle tag K M vpm fr cap = true) := by
  refine ⟨self_intersections_impl_false_ok gen shuffle tag K M vpm fr cap, ?_⟩
  intro e he
  unfold does_self_intersect
  rw [he]

/-- Witness for C9: over `[0, 1]` with `K0` the throw-mode run raises
(face 0 is degenerate); the enumerate run still returns normally and
the test driver returns true. -/
theorem termination_signals_translated_witness :
    (∃ l, self_intersections pairUp id ConcurrencyTag.Sequential K0 triMesh
        (fun v => v) [0, 1] none = .ok l) ∧
      does_self_intersect pairUp id ConcurrencyTag.Sequential K0 triMesh
        (fun v => v) [0, 1] none = true :=
  ⟨(termination_signals_translated pairUp id ConcurrencyTag.Sequential K0 triMesh
      (fun v => v) [0, 1] none).1,
    (termination_signals_translated pairUp id ConcurrencyTag.Sequential K0 triMesh
      (fun v => v) [0, 1] none).2 [] rfl⟩

/-- C10: a `maximum_number` of 0 makes `self_intersections_impl`
return immediately with an empty output, whatever the generator,
kernel, mesh and mode — so the enumerate driver emits nothing and the
test driver finds no witness. -/
theorem maximum_number_zero_returns_empty {P : Type}
    (gen : List (FaceBox P) → List (FaceBox P × FaceBox P))
    (shuffle : List (FaceBox P) → List (FaceBox P))
    (tag : ConcurrencyTag) (K : Kernel P) (M : Mesh) (vpm : Nat → P)
    (fr : List Nat) :
    self_intersections_impl gen shuffle tag K M vpm fr false (some 0) = .ok [] ∧
      self_intersections gen shuffle tag K M vpm fr (some 0) = .ok [] ∧
      does_self_intersect gen shuffle tag K M vpm fr (some 0) = false := by
  refine ⟨?_, ?_, ?_⟩ <;>
    simp [self_intersections, self_intersections_impl, does_self_intersect]

/-- C8: with no cap and a fixed concurrency mode, `does_self_intersect`
returns true exactly when `self_intersections` on the same inputs
emits at least one pair (a degenerate self-pair or an accepted
intersecting pair), and false exactly when the traversal completes
with no witness. -/
theorem does_self_intersect_iff_some_pair {P : Type}
    (gen : List (FaceBox P) → List (FaceBox P × FaceBox P))
    (shuffle : List (FaceBox P) → List (FaceBox P))
    (tag : ConcurrencyTag) (K : Kernel P) (M : Mesh) (vpm : Nat → P)
    (fr : List Nat) :
    does_self_intersect gen shuffle tag K M vpm fr none = true ↔
      ∃ l, self_intersections gen shuffle tag K M vpm fr none = .ok l ∧ l ≠ [] := by
  by_cases hex : ∃ e, e ∈ fr ∧ faceDegenerate K M vpm e = true
  · obtain ⟨f, hf, hdf⟩ := hex
    have hdoes : does_self_intersect gen shuffle tag K M vpm fr none = true := by
      unfold does_self_intersect self_intersections_impl
      simp only [Option.isSome_none, Option.getD_none]
      rw [if_neg (by simp), buildBoxes_throw K M vpm false 0 fr 0 [] [] ⟨f, hf, hdf⟩]
    have henum : ∃ l, self_intersections gen shuffle tag K M vpm fr none = .ok l ∧
        l ≠ [] := by
      obtain ⟨bs, o, c', ho⟩ := buildBoxes_no_limit_done K M vpm 0 fr 0 [] []
      have hmem : (f, f) ∈ o := by
        have hm := buildBoxes_mem_out K M vpm false 0 f hdf fr 0 [] [] hf
          (fun h => Bool.noConfusion h)
        rw [ho] at hm
        exact hm
      have hne : ∀ rest : List (Nat × Nat), o ++ rest ≠ [] := by
        intro rest hnil
        rw [List.append_eq_nil] at hnil
        rw [hnil.1] at hmem
        exact List.not_mem_nil _ hmem
      cases tag with
      | Sequential =>
        refine ⟨o ++ unlimitedPairs K M vpm (gen bs), ?_, hne _⟩
        unfold self_intersections self_intersections_impl
        simp only [Option.isSome_none, Option.getD_none]
        rw [if_neg (by simp), ho]
        simp
      | Parallel =>
        refine ⟨o ++ unlimitedPairs K M vpm (gen (shuffle bs)), ?_, hne _⟩
        unfold self_intersections self_intersections_impl
        simp only [Option.isSome_none, Option.getD_none]
        rw [if_neg (by simp), ho]
        simp
    exact ⟨fun _ => henum, fun _ => hdoes⟩
  · have hnd : ∀ e ∈ fr, faceDegenerate K M vpm e = false := by
      intro e he
      rcases Bool.eq_false_or_eq_true (faceDegenerate K M vpm e) with h | h
      · exact absurd ⟨e, he, h⟩ hex
      · exact h
    have hoT := buildBoxes_no_degen K M vpm true false 0 fr 0 [] [] hnd
    have hoF := buildBoxes_no_degen K M vpm false false 0 fr 0 [] [] hnd
    rw [List.nil_append] at hoT hoF
    cases tag with
    | Sequential =>
      have hdoes : does_self_intersect gen shuffle ConcurrencyTag.Sequential K M vpm fr none
          = anyPairAccepted K M vpm (gen (fr.map (mkBox M vpm))) := by
        unfold does_self_intersect self_intersections_impl
        simp only [Option.isSome_none, Option.getD_none]
        rw [if_neg (by simp), hoT]
        rcases Bool.eq_false_or_eq_true
          (anyPairAccepted K M vpm (gen (fr.map (mkBox M vpm)))) with hany | hany
        · simp [hany]
        · simp [hany]
      have henum : self_intersections gen shuffle ConcurrencyTag.Sequential K M vpm fr none
          = .ok (unlimitedPairs K M vpm (gen (fr.map (mkBox M vpm)))) := by
        unfold self_intersections self_intersections_impl
        simp only [Option.isSome_none, Option.getD_none]
        rw [if_neg (by simp), hoF]
        simp
      rw [hdoes, henum]
      constructor
      · intro hany
        refine ⟨unlimitedPairs K M vpm (gen (fr.map (mkBox M vpm))), rfl, ?_⟩
        intro hnil
        rw [unlimitedPairs_eq_nil_iff] at hnil
        rw [hnil] at hany
        exact Bool.noConfusion hany
      · rintro ⟨l, hl, hne⟩
        injection hl with hl
        subst hl
        rcases Bool.eq_false_or_eq_true
          (anyPairAccepted K M vpm (gen (fr.map (mkBox M vpm)))) with h | h
        · exact h
        · exact absurd ((unlimitedPairs_eq_nil_iff K M vpm _).mpr h) hne
    | Parallel =>
      have hdoes : does_self_intersect gen shuffle ConcurrencyTag.Parallel K M vpm fr none
          = anyPairAccepted K M vpm (gen (shuffle (fr.map (mkBox M vpm)))) := by
        unfold does_self_intersect self_intersections_impl
        simp only [Option.isSome_none, Option.getD_none]
        rw [if_neg (by simp), hoT]
        rcases Bool.eq_false_or_eq_true
          (anyPairAccepted K M vpm (gen (shuffle (fr.map (mkBox M vpm))))) with hany | hany
        · simp [hany]
        · simp [hany]
      have henum : self_intersections gen shuffle ConcurrencyTag.Parallel K M vpm fr none
          = .ok (unlimitedPairs K M vpm (gen (shuffle (fr.map (mkBox M vpm))))) := by
        unfold self_intersections self_intersections_impl
        simp only [Option.isSome_none, Option.getD_none]
        rw [if_neg (by simp), hoF]
        simp
      rw [hdoes, henum]
      constructor
      · intro hany
        refine ⟨unlimitedPairs K M vpm (gen (shuffle (fr.map (mkBox M vpm)))), rfl, ?_⟩
        intro hnil
        rw [unlimitedPairs_eq_nil_iff] at hnil
        rw [hnil] at hany
        exact Bool.noConfusion hany
      · rintro ⟨l, hl, hne⟩
        injection hl with hl
        subst hl
        rcases Bool.eq_false_or_eq_true
          (anyPairAccepted K M vpm (gen (shuffle (fr.map (mkBox M vpm))))) with h | h
        · exact h
        · exact absurd ((unlimitedPairs_eq_nil_iff K M vpm _).mpr h) hne

end SelfIntersections
